import Mathlib

/-!
Verification of the institutional-scanner-nextgen repository.

Shallow embedding of the two source modules the claims are about:

* src/data_engine.py — weekly resampling of daily OHLCV bars
  (DataEngine.to_weekly) and the partial-success universe fetch
  (DataEngine.get_ohlcv_for_universe).
* src/leader_engine.py — LeaderConfig, LeaderResult, the
  normalisation/grading pipeline (_grade_from_norm, _build_leader_result),
  the per-ticker stub scorers (scan_retest_mode, scan_base_breakout_mode)
  and the batch scanners (scan_universe_retest, scan_universe_base).

Modelling conventions:

* Python floats are modelled as exact rationals (ℚ).  Python round with one
  argument rounds halves to the nearest even integer; pythonRound below
  implements exactly that on ℚ.
* A pandas DataFrame of OHLCV rows is a list of Bar records ordered by date.
  A date is a natural number of days since an epoch that falls on a Thursday
  (as the Unix epoch does), so a day d is a Friday exactly when d % 7 = 1.
* pandas resample with a Friday-anchored weekly rule groups rows by the
  Friday on or after their date; buckets between the first and last label
  that contain no rows are produced as all-NaN rows and then removed by
  dropna, so the net effect on a NaN-free, date-sorted frame is: one output
  row per Friday-week that contains at least one input row, in date order.
  to_weekly below implements that directly by grouping consecutive runs of
  equal week label.
* Python dicts built by the fetch loop are modelled as functions into
  Option; the fallible per-ticker fetch (yfinance, external to the repo) is
  a parameter of type String → Except String (List Bar).
-/

set_option linter.unusedVariables false

/-- One OHLCV row of a pandas DataFrame, with its date index.  Column names
follow the source (df is reindexed to Open, High, Low, Close, Volume). -/
structure Bar where
  date : ℕ
  Open : ℚ
  High : ℚ
  Low : ℚ
  Close : ℚ
  Volume : ℚ
  deriving DecidableEq

/-- The W-FRI bucket label of a day: the Friday on or after it.  Day 0 is a
Thursday, so Fridays are the days congruent to 1 mod 7. -/
def weekKey (d : ℕ) : ℕ := d + (8 - d % 7) % 7

/-- The aggregation pandas applies to one weekly group (first Open, max High,
min Low, last Close, summed Volume), labelled by the group's Friday.  The
group is passed as head bar plus the rest of the week's bars. -/
def aggWeek (b : Bar) (g : List Bar) : Bar :=
  { date := weekKey b.date
    Open := b.Open
    High := (g.map Bar.High).foldl max b.High
    Low := (g.map Bar.Low).foldl min b.Low
    Close := (g.getLastD b).Close
    Volume := (g.map Bar.Volume).foldl (· + ·) b.Volume }

/-- DataEngine.to_weekly: resample a date-sorted daily frame to Friday-anchored
weekly bars (resample W-FRI, agg first/max/min/last/sum, dropna). -/
def to_weekly : List Bar → List Bar
  | [] => []
  | b :: rest =>
    aggWeek b (rest.takeWhile fun x => weekKey x.date == weekKey b.date)
      :: to_weekly (rest.dropWhile fun x => weekKey x.date == weekKey b.date)
termination_by l => l.length
decreasing_by
  simp only [List.length_cons]
  exact Nat.lt_succ_of_le ((List.dropWhile_sublist _).length_le)

/-- The daily/weekly pair stored per ticker by the universe fetch. -/
structure OHLCVData where
  daily : List Bar
  weekly : List Bar
  deriving DecidableEq

/-- One iteration of the DataEngine.get_ohlcv_for_universe loop: fetch the
ticker's daily frame, skip it when the fetch raises or comes back empty, and
otherwise store the daily frame together with its weekly resample. -/
def universeStep (fetch : String → Except String (List Bar))
    (out : String → Option OHLCVData) (t : String) : String → Option OHLCVData :=
  match fetch t with
  | Except.error _ => out
  | Except.ok daily =>
    if daily.isEmpty then out
    else fun s => if s = t then some ⟨daily, to_weekly daily⟩ else out s

/-- DataEngine.get_ohlcv_for_universe: loop universeStep over the tickers
starting from the empty dict. -/
def get_ohlcv_for_universe (fetch : String → Except String (List Bar))
    (tickers : List String) : String → Option OHLCVData :=
  tickers.foldl (universeStep fetch) (fun _ => none)

/-- Grade string constants from leader_engine.py. -/
def gradeFullHit : String := "full_hit"

def gradeStrong : String := "strong"

def gradeWatchlist : String := "watchlist"

def modeRetest : String := "retest"

def modeBase : String := "base"

def sectorUnknown : String := "Unknown"

/-- LeaderConfig with its default values (normalization_divisor default 1.25,
grade cutoffs 80 and 60). -/
structure LeaderConfig where
  min_prior_run_pct_by_sector : List (String × ℚ)
  min_correction_pct : ℚ := 35
  max_correction_pct : ℚ := 90
  max_dist_to_200w_pct : ℚ := 15
  vol_surge_1x_pts : ℚ := 0
  vol_surge_3x_pts : ℚ := 20
  min_atr_daily_pct : ℚ := 3
  max_atr_daily_pct : ℚ := 8
  normalization_divisor : ℚ := 5 / 4
  full_hit_min : ℚ := 80
  strong_min : ℚ := 60
  deriving DecidableEq

/-- LeaderResult record from leader_engine.py; the dataclass field named
structure (a Lean keyword) is rendered structure'. -/
structure LeaderResult where
  ticker : String
  mode : String
  raw_score : ℚ
  norm_score : ℚ
  grade : String
  components : List (String × ℚ)
  tags : List String
  metrics : List (String × ℚ)
  is_full_hit : Bool
  is_strong : Bool
  is_watchlist : Bool
  structure' : Option String := none
  deriving DecidableEq

/-- Python round with one argument on an exact rational: round to the nearest
integer, halves to the nearest even integer. -/
def pythonRound (q : ℚ) : ℤ :=
  if q - ⌊q⌋ < 1 / 2 then ⌊q⌋
  else if 1 / 2 < q - ⌊q⌋ then ⌊q⌋ + 1
  else if ⌊q⌋ % 2 = 0 then ⌊q⌋ else ⌊q⌋ + 1

/-- leader_engine._grade_from_norm: highest threshold first. -/
def _grade_from_norm (norm_score : ℚ) (cfg : LeaderConfig) : String :=
  if cfg.full_hit_min ≤ norm_score then gradeFullHit
  else if cfg.strong_min ≤ norm_score then gradeStrong
  else gradeWatchlist

/-- leader_engine._build_leader_result: normalise the raw score to
min(100, round(raw / divisor)), grade it, and derive the three flags. -/
def _build_leader_result (ticker : String) (mode : String) (raw_score : ℚ)
    (components : List (String × ℚ)) (tags : List String)
    (metrics : List (String × ℚ)) (structure' : Option String)
    (cfg : LeaderConfig) : LeaderResult :=
  let norm : ℚ := min 100 ((pythonRound (raw_score / cfg.normalization_divisor) : ℤ) : ℚ)
  let grade := _grade_from_norm norm cfg
  { ticker := ticker
    mode := mode
    raw_score := raw_score
    norm_score := norm
    grade := grade
    components := components
    tags := tags
    metrics := metrics
    is_full_hit := grade == gradeFullHit
    is_strong := grade == gradeStrong
    is_watchlist := grade == gradeWatchlist
    structure' := structure' }

/-- leader_engine.scan_retest_mode: stub scorer, raw score 0 and empty
metadata. -/
def scan_retest_mode (ticker : String) (weekly_df daily_df : List Bar)
    (sector_name : String) (cfg : LeaderConfig) : LeaderResult :=
  _build_leader_result ticker modeRetest 0 [] [] [] none cfg

/-- leader_engine.scan_base_breakout_mode: stub scorer, raw score 0 and empty
metadata. -/
def scan_base_breakout_mode (ticker : String) (weekly_df daily_df : List Bar)
    (sector_name : String) (cfg : LeaderConfig) : LeaderResult :=
  _build_leader_result ticker modeBase 0 [] [] [] none cfg

/-- leader_engine.scan_universe_retest: keep the tickers whose weekly and
daily frames are both present and non-empty, score each with the sector
looked up in the sector map falling back to Unknown, in input order. -/
def scan_universe_retest (tickers : List String)
    (weekly_map daily_map : String → Option (List Bar))
    (sector_map : String → Option String) (cfg : LeaderConfig) :
    List LeaderResult :=
  match tickers with
  | [] => []
  | t :: rest =>
    match weekly_map t, daily_map t with
    | some w, some d =>
      if w.isEmpty || d.isEmpty then
        scan_universe_retest rest weekly_map daily_map sector_map cfg
      else
        scan_retest_mode t w d ((sector_map t).getD sectorUnknown) cfg
          :: scan_universe_retest rest weekly_map daily_map sector_map cfg
    | _, _ => scan_universe_retest rest weekly_map daily_map sector_map cfg

/-- leader_engine.scan_universe_base: same skip logic as scan_universe_retest
with the base-breakout scorer. -/
def scan_universe_base (tickers : List String)
    (weekly_map daily_map : String → Option (List Bar))
    (sector_map : String → Option String) (cfg : LeaderConfig) :
    List LeaderResult :=
  match tickers with
  | [] => []
  | t :: rest =>
    match weekly_map t, daily_map t with
    | some w, some d =>
      if w.isEmpty || d.isEmpty then
        scan_universe_base rest weekly_map daily_map sector_map cfg
      else
        scan_base_breakout_mode t w d ((sector_map t).getD sectorUnknown) cfg
          :: scan_universe_base rest weekly_map daily_map sector_map cfg
    | _, _ => scan_universe_base rest weekly_map daily_map sector_map cfg

/-- The LeaderConfig all defaults, with an empty sector-threshold table. -/
def defaultCfg : LeaderConfig := { min_prior_run_pct_by_sector := [] }

/-- A LeaderConfig identical to the defaults except that the strong-grade
cutoff is lowered to 0. -/
def cfgZeroStrong : LeaderConfig := { min_prior_run_pct_by_sector := [], strong_min := 0 }

/-- A concrete ticker symbol used for witnesses. -/
def tickerX : String := "XYZ"

lemma pythonRound_mem (q : ℚ) : pythonRound q = ⌊q⌋ ∨ pythonRound q = ⌊q⌋ + 1 := by
  unfold pythonRound
  split_ifs <;> simp

lemma pythonRound_nonneg (q : ℚ) (hq : 0 ≤ q) : 0 ≤ pythonRound q := by
  have hf : (0 : ℤ) ≤ ⌊q⌋ := Int.floor_nonneg.mpr hq
  rcases pythonRound_mem q with h | h <;> omega

lemma pythonRound_intCast (n : ℤ) : pythonRound (n : ℚ) = n := by
  unfold pythonRound
  rw [Int.floor_intCast]
  simp

lemma pythonRound_zero : pythonRound 0 = 0 := by
  have := pythonRound_intCast 0
  simpa using this

lemma build_norm_eq (ticker mode : String) (raw_score : ℚ)
    (components : List (String × ℚ)) (tags : List String)
    (metrics : List (String × ℚ)) (structure' : Option String)
    (cfg : LeaderConfig) :
    (_build_leader_result ticker mode raw_score components tags metrics structure' cfg).norm_score
      = min 100 ((pythonRound (raw_score / cfg.normalization_divisor) : ℤ) : ℚ) := rfl

lemma build_grade_eq (ticker mode : String) (raw_score : ℚ)
    (components : List (String × ℚ)) (tags : List String)
    (metrics : List (String × ℚ)) (structure' : Option String)
    (cfg : LeaderConfig) :
    (_build_leader_result ticker mode raw_score components tags metrics structure' cfg).grade
      = _grade_from_norm
          (min 100 ((pythonRound (raw_score / cfg.normalization_divisor) : ℤ) : ℚ)) cfg := rfl

lemma build_zero_norm (ticker mode : String)
    (components : List (String × ℚ)) (tags : List String)
    (metrics : List (String × ℚ)) (structure' : Option String)
    (cfg : LeaderConfig) :
    (_build_leader_result ticker mode 0 components tags metrics structure' cfg).norm_score = 0 := by
  rw [build_norm_eq, zero_div, pythonRound_zero]
  norm_num

lemma norm_nonneg_le_100 (raw_score : ℚ) (cfg : LeaderConfig)
    (h0 : 0 ≤ raw_score) (hv : 0 < cfg.normalization_divisor) :
    0 ≤ min 100 ((pythonRound (raw_score / cfg.normalization_divisor) : ℤ) : ℚ) ∧
      min 100 ((pythonRound (raw_score / cfg.normalization_divisor) : ℤ) : ℚ) ≤ 100 := by
  constructor
  · apply le_min (by norm_num)
    exact_mod_cast pythonRound_nonneg _ (div_nonneg h0 hv.le)
  · exact min_le_left _ _

/-- C1: _build_leader_result computes the normalized score as
min(100, round(raw_score / divisor)), and for a non-negative raw score and a
positive divisor that normalized score lies in [0, 100]. -/
theorem build_leader_norm_formula (ticker mode : String) (raw_score : ℚ)
    (components : List (String × ℚ)) (tags : List String)
    (metrics : List (String × ℚ)) (structure' : Option String)
    (cfg : LeaderConfig) :
    (_build_leader_result ticker mode raw_score components tags metrics structure' cfg).norm_score
      = min 100 ((pythonRound (raw_score / cfg.normalization_divisor) : ℤ) : ℚ) ∧
    (0 ≤ raw_score → 0 < cfg.normalization_divisor →
      0 ≤ (_build_leader_result ticker mode raw_score components tags metrics structure' cfg).norm_score ∧
        (_build_leader_result ticker mode raw_score components tags metrics structure' cfg).norm_score ≤ 100) := by
  refine ⟨build_norm_eq _ _ _ _ _ _ _ _, fun h0 hv => ?_⟩
  rw [build_norm_eq]
  exact norm_nonneg_le_100 raw_score cfg h0 hv

/-- C1 witness: raw score 100 with the default divisor 1.25 gives a
normalized score in [0, 100] (in fact 80). -/
theorem build_leader_norm_formula_witness :
    (0 : ℚ) ≤ 100 ∧ 0 < defaultCfg.normalization_divisor ∧
      (0 ≤ (_build_leader_result tickerX modeRetest 100 [] [] [] none defaultCfg).norm_score ∧
        (_build_leader_result tickerX modeRetest 100 [] [] [] none defaultCfg).norm_score ≤ 100) :=
  ⟨by norm_num, by norm_num [defaultCfg],
    (build_leader_norm_formula tickerX modeRetest 100 [] [] [] none defaultCfg).2
      (by norm_num) (by norm_num [defaultCfg])⟩

/-- C7 counterexample: with the default configuration (divisor 1.25 > 0) a
raw score of -100 yields norm_score = -80, outside [0, 100], so the claim
fails when quantified over every raw score. -/
theorem build_leader_norm_negative_counterexample :
    0 < defaultCfg.normalization_divisor ∧
      (_build_leader_result tickerX modeRetest (-100) [] [] [] none defaultCfg).norm_score = -80 ∧
      ¬ (0 ≤ (_build_leader_result tickerX modeRetest (-100) [] [] [] none defaultCfg).norm_score) := by
  have hq : ((-100 : ℚ) / defaultCfg.normalization_divisor) = ((-80 : ℤ) : ℚ) := by
    norm_num [defaultCfg]
  have hnorm : (_build_leader_result tickerX modeRetest (-100) [] [] [] none defaultCfg).norm_score = -80 := by
    rw [build_norm_eq, hq, pythonRound_intCast]
    norm_num
  refine ⟨by norm_num [defaultCfg], hnorm, ?_⟩
  rw [hnorm]
  norm_num

/-- C7 amended: every LeaderResult built by _build_leader_result from a
non-negative raw score and a positive divisor has norm_score in [0, 100]. -/
theorem build_leader_norm_in_range (ticker mode : String) (raw_score : ℚ)
    (components : List (String × ℚ)) (tags : List String)
    (metrics : List (String × ℚ)) (structure' : Option String)
    (cfg : LeaderConfig) (h0 : 0 ≤ raw_score) (hv : 0 < cfg.normalization_divisor) :
    0 ≤ (_build_leader_result ticker mode raw_score components tags metrics structure' cfg).norm_score ∧
      (_build_leader_result ticker mode raw_score components tags metrics structure' cfg).norm_score ≤ 100 := by
  rw [build_norm_eq]
  exact norm_nonneg_le_100 raw_score cfg h0 hv

/-- C7 witness: raw score 50 under the default configuration. -/
theorem build_leader_norm_in_range_witness :
    (0 : ℚ) ≤ 50 ∧ 0 < defaultCfg.normalization_divisor ∧
      (0 ≤ (_build_leader_result tickerX modeBase 50 [] [] [] none defaultCfg).norm_score ∧
        (_build_leader_result tickerX modeBase 50 [] [] [] none defaultCfg).norm_score ≤ 100) :=
  ⟨by norm_num, by norm_num [defaultCfg],
    build_leader_norm_in_range tickerX modeBase 50 [] [] [] none defaultCfg
      (by norm_num) (by norm_num [defaultCfg])⟩

/-- C9: in every result built by _build_leader_result each of the three
boolean flags is true exactly when the grade equals the corresponding tier,
and exactly one of the three flags is true. -/
theorem build_leader_flags (ticker mode : String) (raw_score : ℚ)
    (components : List (String × ℚ)) (tags : List String)
    (metrics : List (String × ℚ)) (structure' : Option String)
    (cfg : LeaderConfig) :
    ((_build_leader_result ticker mode raw_score components tags metrics structure' cfg).is_full_hit = true ↔
      (_build_leader_result ticker mode raw_score components tags metrics structure' cfg).grade = gradeFullHit) ∧
    ((_build_leader_result ticker mode raw_score components tags metrics structure' cfg).is_strong = true ↔
      (_build_leader_result ticker mode raw_score components tags metrics structure' cfg).grade = gradeStrong) ∧
    ((_build_leader_result ticker mode raw_score components tags metrics structure' cfg).is_watchlist = true ↔
      (_build_leader_result ticker mode raw_score components tags metrics structure' cfg).grade = gradeWatchlist) ∧
    (((_build_leader_result ticker mode raw_score components tags metrics structure' cfg).is_full_hit = true ∧
        (_build_leader_result ticker mode raw_score components tags metrics structure' cfg).is_strong = false ∧
        (_build_leader_result ticker mode raw_score components tags metrics structure' cfg).is_watchlist = false) ∨
      ((_build_leader_result ticker mode raw_score components tags metrics structure' cfg).is_full_hit = false ∧
        (_build_leader_result ticker mode raw_score components tags metrics structure' cfg).is_strong = true ∧
        (_build_leader_result ticker mode raw_score components tags metrics structure' cfg).is_watchlist = false) ∨
      ((_build_leader_result ticker mode raw_score components tags metrics structure' cfg).is_full_hit = false ∧
        (_build_leader_result ticker mode raw_score components tags metrics structure' cfg).is_strong = false ∧
        (_build_leader_result ticker mode raw_score components tags metrics structure' cfg).is_watchlist = true)) := by
  refine ⟨by simp [_build_leader_result], by simp [_build_leader_result], by simp [_build_leader_result], ?_⟩
  simp only [_build_leader_result, _grade_from_norm]
  split_ifs <;> simp [gradeFullHit, gradeStrong, gradeWatchlist]

/-- C2: with the default thresholds full_hit_min = 80 and strong_min = 60,
_grade_from_norm maps each normalized score in [0, 100] to exactly one of the
three tiers, highest threshold first, with boundary scores going to the
higher tier. -/
theorem grade_from_norm_tiers (cfg : LeaderConfig)
    (hf : cfg.full_hit_min = 80) (hs : cfg.strong_min = 60)
    (n : ℚ) (h0 : 0 ≤ n) (h100 : n ≤ 100) :
    (_grade_from_norm n cfg = gradeFullHit ↔ 80 ≤ n) ∧
    (_grade_from_norm n cfg = gradeStrong ↔ 60 ≤ n ∧ n < 80) ∧
    (_grade_from_norm n cfg = gradeWatchlist ↔ n < 60) ∧
    ((_grade_from_norm n cfg = gradeFullHit ∧ ¬ _grade_from_norm n cfg = gradeStrong ∧
        ¬ _grade_from_norm n cfg = gradeWatchlist) ∨
      (¬ _grade_from_norm n cfg = gradeFullHit ∧ _grade_from_norm n cfg = gradeStrong ∧
        ¬ _grade_from_norm n cfg = gradeWatchlist) ∨
      (¬ _grade_from_norm n cfg = gradeFullHit ∧ ¬ _grade_from_norm n cfg = gradeStrong ∧
        _grade_from_norm n cfg = gradeWatchlist)) := by
  unfold _grade_from_norm
  rw [hf, hs]
  split_ifs with h1 h2 <;>
    simp [gradeFullHit, gradeStrong, gradeWatchlist] <;>
    and_intros <;> first | linarith | tauto

/-- C2 witness: a normalized score of exactly 80 under the default thresholds
is graded full_hit (the boundary goes to the higher tier). -/
theorem grade_from_norm_tiers_witness :
    defaultCfg.full_hit_min = 80 ∧ defaultCfg.strong_min = 60 ∧
      (0 : ℚ) ≤ 80 ∧ (80 : ℚ) ≤ 100 ∧
      _grade_from_norm 80 defaultCfg = gradeFullHit :=
  ⟨rfl, rfl, by norm_num, by norm_num,
    (grade_from_norm_tiers defaultCfg rfl rfl 80 (by norm_num) (by norm_num)).1.mpr
      (by norm_num)⟩

lemma grade_zero_watchlist (cfg : LeaderConfig)
    (hs : 0 < cfg.strong_min) (hf : 0 < cfg.full_hit_min) :
    _grade_from_norm 0 cfg = gradeWatchlist := by
  unfold _grade_from_norm
  rw [if_neg (by linarith), if_neg (by linarith)]

lemma build_zero_grade_eq (ticker mode : String)
    (components : List (String × ℚ)) (tags : List String)
    (metrics : List (String × ℚ)) (structure' : Option String)
    (cfg : LeaderConfig) :
    (_build_leader_result ticker mode 0 components tags metrics structure' cfg).grade
      = _grade_from_norm 0 cfg := by
  rw [build_grade_eq, zero_div, pythonRound_zero]
  norm_num

/-- C3 amended: both stub scanners always return raw_score = 0, hence (for a
positive divisor) norm_score = 0, and the grade is watchlist provided both
grade cutoffs are positive, as the defaults 80 and 60 are. -/
theorem scan_stub_zero (ticker : String) (weekly_df daily_df : List Bar)
    (sector_name : String) (cfg : LeaderConfig) :
    (scan_retest_mode ticker weekly_df daily_df sector_name cfg).raw_score = 0 ∧
    (scan_base_breakout_mode ticker weekly_df daily_df sector_name cfg).raw_score = 0 ∧
    (0 < cfg.normalization_divisor →
      (scan_retest_mode ticker weekly_df daily_df sector_name cfg).norm_score = 0 ∧
        (scan_base_breakout_mode ticker weekly_df daily_df sector_name cfg).norm_score = 0) ∧
    (0 < cfg.normalization_divisor → 0 < cfg.strong_min → 0 < cfg.full_hit_min →
      (scan_retest_mode ticker weekly_df daily_df sector_name cfg).grade = gradeWatchlist ∧
        (scan_base_breakout_mode ticker weekly_df daily_df sector_name cfg).grade = gradeWatchlist) := by
  refine ⟨rfl, rfl, fun hv => ⟨build_zero_norm _ _ _ _ _ _ _, build_zero_norm _ _ _ _ _ _ _⟩,
    fun hv hs hf => ⟨?_, ?_⟩⟩ <;>
    · show (_build_leader_result _ _ 0 _ _ _ _ _).grade = gradeWatchlist
      rw [build_zero_grade_eq]
      exact grade_zero_watchlist cfg hs hf

/-- C3 witness: under the default configuration the retest and base stubs
yield raw 0, norm 0, grade watchlist. -/
theorem scan_stub_zero_witness :
    0 < defaultCfg.normalization_divisor ∧ 0 < defaultCfg.strong_min ∧
      0 < defaultCfg.full_hit_min ∧
      (scan_retest_mode tickerX [] [] sectorUnknown defaultCfg).raw_score = 0 ∧
      ((scan_retest_mode tickerX [] [] sectorUnknown defaultCfg).norm_score = 0 ∧
        (scan_base_breakout_mode tickerX [] [] sectorUnknown defaultCfg).norm_score = 0) ∧
      ((scan_retest_mode tickerX [] [] sectorUnknown defaultCfg).grade = gradeWatchlist ∧
        (scan_base_breakout_mode tickerX [] [] sectorUnknown defaultCfg).grade = gradeWatchlist) :=
  ⟨by norm_num [defaultCfg], by norm_num [defaultCfg], by norm_num [defaultCfg],
    (scan_stub_zero tickerX [] [] sectorUnknown defaultCfg).1,
    (scan_stub_zero tickerX [] [] sectorUnknown defaultCfg).2.2.1 (by norm_num [defaultCfg]),
    (scan_stub_zero tickerX [] [] sectorUnknown defaultCfg).2.2.2 (by norm_num [defaultCfg])
      (by norm_num [defaultCfg]) (by norm_num [defaultCfg])⟩

/-- C3 counterexample: a configuration with positive divisor but strong_min
lowered to 0 makes the stub result grade strong, not watchlist, so the grade
part of the claim fails for some configurations. -/
theorem scan_stub_grade_counterexample :
    0 < cfgZeroStrong.normalization_divisor ∧
      (scan_retest_mode tickerX [] [] sectorUnknown cfgZeroStrong).grade = gradeStrong ∧
      gradeStrong ≠ gradeWatchlist := by
  refine ⟨by norm_num [cfgZeroStrong], ?_, by simp [gradeStrong, gradeWatchlist]⟩
  show (_build_leader_result _ _ 0 _ _ _ _ _).grade = gradeStrong
  rw [build_zero_grade_eq]
  unfold _grade_from_norm
  rw [if_neg (by norm_num [cfgZeroStrong]), if_pos (by norm_num [cfgZeroStrong])]

/-- The batch-scan keep condition: the ticker is present in both the weekly
and the daily map and neither frame is empty. -/
def has_data (weekly_map daily_map : String → Option (List Bar)) (t : String) : Bool :=
  match weekly_map t, daily_map t with
  | some w, some d => !(w.isEmpty || d.isEmpty)
  | _, _ => false


lemma scan_universe_retest_eq (tickers : List String)
    (weekly_map daily_map : String → Option (List Bar))
    (sector_map : String → Option String) (cfg : LeaderConfig) :
    scan_universe_retest tickers weekly_map daily_map sector_map cfg
      = (tickers.filter (has_data weekly_map daily_map)).map
          (fun t => scan_retest_mode t ((weekly_map t).getD []) ((daily_map t).getD [])
            ((sector_map t).getD sectorUnknown) cfg) := by
  induction tickers with
  | nil => rfl
  | cons t rest ih =>
    rcases hw : weekly_map t with _ | w <;> rcases hd : daily_map t with _ | d <;>
      simp only [scan_universe_retest, hw, hd, List.filter_cons, has_data, ih] <;>
      try simp
    by_cases hwe : w = [] <;> by_cases hde : d = [] <;> simp [hwe, hde, hw, hd]

lemma scan_universe_base_eq (tickers : List String)
    (weekly_map daily_map : String → Option (List Bar))
    (sector_map : String → Option String) (cfg : LeaderConfig) :
    scan_universe_base tickers weekly_map daily_map sector_map cfg
      = (tickers.filter (has_data weekly_map daily_map)).map
          (fun t => scan_base_breakout_mode t ((weekly_map t).getD []) ((daily_map t).getD [])
            ((sector_map t).getD sectorUnknown) cfg) := by
  induction tickers with
  | nil => rfl
  | cons t rest ih =>
    rcases hw : weekly_map t with _ | w <;> rcases hd : daily_map t with _ | d <;>
      simp only [scan_universe_base, hw, hd, List.filter_cons, has_data, ih] <;>
      try simp
    by_cases hwe : w = [] <;> by_cases hde : d = [] <;> simp [hwe, hde, hw, hd]

/-- C6: both batch scanners return exactly the tickers kept by the
present-and-non-empty check, in input order, one result each, produced by the
per-ticker scorer (a total function, so no error can be raised); every other
ticker is omitted. -/
theorem scan_universe_keeps_exactly (tickers : List String)
    (weekly_map daily_map : String → Option (List Bar))
    (sector_map : String → Option String) (cfg : LeaderConfig) :
    scan_universe_retest tickers weekly_map daily_map sector_map cfg
        = (tickers.filter (has_data weekly_map daily_map)).map
            (fun t => scan_retest_mode t ((weekly_map t).getD []) ((daily_map t).getD [])
              ((sector_map t).getD sectorUnknown) cfg) ∧
      scan_universe_base tickers weekly_map daily_map sector_map cfg
        = (tickers.filter (has_data weekly_map daily_map)).map
            (fun t => scan_base_breakout_mode t ((weekly_map t).getD []) ((daily_map t).getD [])
              ((sector_map t).getD sectorUnknown) cfg) ∧
      (scan_universe_retest tickers weekly_map daily_map sector_map cfg).map LeaderResult.ticker
        = tickers.filter (has_data weekly_map daily_map) ∧
      (scan_universe_base tickers weekly_map daily_map sector_map cfg).map LeaderResult.ticker
        = tickers.filter (has_data weekly_map daily_map) := by
  refine ⟨scan_universe_retest_eq tickers weekly_map daily_map sector_map cfg,
    scan_universe_base_eq tickers weekly_map daily_map sector_map cfg, ?_, ?_⟩
  · rw [scan_universe_retest_eq, List.map_map]
    exact List.map_id _
  · rw [scan_universe_base_eq, List.map_map]
    exact List.map_id _

/-- C10: a ticker with non-empty weekly and daily frames that is absent from
the sector map is not skipped: it is scored with the fallback sector label
Unknown and its result appears in the output of both batch scanners. -/
theorem scan_universe_unknown_sector (tickers : List String)
    (weekly_map daily_map : String → Option (List Bar))
    (sector_map : String → Option String) (cfg : LeaderConfig)
    (t : String) (w d : List Bar)
    (ht : t ∈ tickers) (hw : weekly_map t = some w) (hd : daily_map t = some d)
    (hwne : w ≠ []) (hdne : d ≠ []) (hs : sector_map t = none) :
    scan_retest_mode t w d sectorUnknown cfg
        ∈ scan_universe_retest tickers weekly_map daily_map sector_map cfg ∧
      scan_base_breakout_mode t w d sectorUnknown cfg
        ∈ scan_universe_base tickers weekly_map daily_map sector_map cfg := by
  have hmem : t ∈ tickers.filter (has_data weekly_map daily_map) := by
    refine List.mem_filter.mpr ⟨ht, ?_⟩
    simp [has_data, hw, hd, List.isEmpty_iff, hwne, hdne]
  constructor
  · rw [scan_universe_retest_eq]
    refine List.mem_map.mpr ⟨t, hmem, ?_⟩
    simp [hw, hd, hs]
  · rw [scan_universe_base_eq]
    refine List.mem_map.mpr ⟨t, hmem, ?_⟩
    simp [hw, hd, hs]

/-- A concrete daily bar on day 0, a Thursday. -/
def bar0 : Bar := ⟨0, 10, 12, 9, 11, 1000⟩

/-- A weekly/daily map holding the single-bar frame for every ticker. -/
def wmap0 : String → Option (List Bar) := fun _ => some [bar0]

/-- A sector map with no entries. -/
def smap0 : String → Option String := fun _ => none

/-- C10 witness: a one-ticker universe with data but no sector entry. -/
theorem scan_universe_unknown_sector_witness :
    tickerX ∈ [tickerX] ∧ wmap0 tickerX = some [bar0] ∧ ([bar0] : List Bar) ≠ [] ∧
      smap0 tickerX = none ∧
      (scan_retest_mode tickerX [bar0] [bar0] sectorUnknown defaultCfg
          ∈ scan_universe_retest [tickerX] wmap0 wmap0 smap0 defaultCfg ∧
        scan_base_breakout_mode tickerX [bar0] [bar0] sectorUnknown defaultCfg
          ∈ scan_universe_base [tickerX] wmap0 wmap0 smap0 defaultCfg) :=
  ⟨List.mem_singleton.mpr rfl, rfl, by simp, rfl,
    scan_universe_unknown_sector [tickerX] wmap0 wmap0 smap0 defaultCfg tickerX [bar0] [bar0]
      (List.mem_singleton.mpr rfl) rfl rfl (by simp) (by simp) rfl⟩

/-- The fetch outcomes that get_ohlcv_for_universe keeps: a successful fetch
with a non-empty daily frame. -/
def fetch_ok (fetch : String → Except String (List Bar)) (t : String) : Bool :=
  match fetch t with
  | Except.ok daily => !daily.isEmpty
  | Except.error _ => false

/-- The entry get_ohlcv_for_universe stores for a kept ticker. -/
def fetchEntry (fetch : String → Except String (List Bar)) (t : String) : Option OHLCVData :=
  match fetch t with
  | Except.ok daily => if daily.isEmpty then none else some ⟨daily, to_weekly daily⟩
  | Except.error _ => none

lemma universe_foldl_spec (fetch : String → Except String (List Bar))
    (tickers : List String) (m : String → Option OHLCVData) (t : String) :
    (tickers.foldl (universeStep fetch) m) t
      = if t ∈ tickers ∧ fetch_ok fetch t = true then fetchEntry fetch t else m t := by
  induction tickers generalizing m with
  | nil => simp
  | cons a rest ih =>
    rw [List.foldl_cons, ih]
    by_cases hmem : t ∈ rest ∧ fetch_ok fetch t = true
    · simp [hmem, List.mem_cons, hmem.1]
    · rw [if_neg hmem]
      by_cases hta : t = a
      · subst hta
        rcases hf : fetch t with e | daily
        · have hok : fetch_ok fetch t = false := by simp [fetch_ok, hf]
          simp only [universeStep, hf]
          rw [if_neg]
          simp [hok]
        · by_cases hde : daily.isEmpty
          · have hok : fetch_ok fetch t = false := by simp [fetch_ok, hf, hde]
            simp only [universeStep, hf]
            rw [if_pos hde, if_neg]
            simp [hok]
          · have hok : fetch_ok fetch t = true := by simp [fetch_ok, hf, hde]
            simp only [universeStep, hf]
            rw [if_neg hde]
            simp [fetchEntry, hf, hde, hok]
      · have : ¬ (t ∈ a :: rest ∧ fetch_ok fetch t = true) := by
          simp only [List.mem_cons]
          rintro ⟨h1 | h1, h2⟩
          · exact hta h1
          · exact hmem ⟨h1, h2⟩
        rw [if_neg this]
        rcases hf : fetch a with e | daily
        · simp [universeStep, hf]
        · by_cases hde : daily.isEmpty <;> simp [universeStep, hf, hde, hta]

/-- C8: get_ohlcv_for_universe omits exactly the tickers whose fetch raised
or returned an empty daily frame; a ticker's presence depends only on its own
fetch outcome, so one ticker failing never prevents the others from
appearing. -/
theorem get_ohlcv_universe_partial_success (fetch : String → Except String (List Bar))
    (tickers : List String) (t : String) :
    (get_ohlcv_for_universe fetch tickers t = none ↔
      t ∉ tickers ∨ (∃ e, fetch t = Except.error e) ∨ fetch t = Except.ok []) ∧
    (∀ daily, t ∈ tickers → fetch t = Except.ok daily → daily ≠ [] →
      get_ohlcv_for_universe fetch tickers t = some ⟨daily, to_weekly daily⟩) := by
  constructor
  · unfold get_ohlcv_for_universe
    rw [universe_foldl_spec]
    by_cases hcond : t ∈ tickers ∧ fetch_ok fetch t = true
    · rw [if_pos hcond]
      obtain ⟨ht, hok⟩ := hcond
      rcases hf : fetch t with e | d
      · simp [fetch_ok, hf] at hok
      · have hde : d ≠ [] := by
          intro h
          subst h
          simp [fetch_ok, hf] at hok
        simp [fetchEntry, hf, List.isEmpty_iff, hde, ht]
    · rw [if_neg hcond]
      simp only [true_iff]
      by_cases ht : t ∈ tickers
      · have hok : ¬ fetch_ok fetch t = true := fun h => hcond ⟨ht, h⟩
        rcases hf : fetch t with e | d
        · exact Or.inr (Or.inl ⟨e, rfl⟩)
        · refine Or.inr (Or.inr ?_)
          have : d = [] := by
            by_contra hne
            exact hok (by simp [fetch_ok, hf, List.isEmpty_iff, hne])
          rw [this]
      · exact Or.inl ht
  · intro daily ht hf hne
    unfold get_ohlcv_for_universe
    rw [universe_foldl_spec,
      if_pos ⟨ht, by simp [fetch_ok, hf, List.isEmpty_iff, hne]⟩]
    simp [fetchEntry, hf, List.isEmpty_iff, hne]

/-- A ticker whose fetch fails, for the C8 witness. -/
def tickerBad : String := "BAD"

/-- The error raised by the failing fetch in the C8 witness. -/
def errBoom : String := "boom"

/-- A fetch that succeeds with one bar for tickerX and raises otherwise. -/
def fetchW : String → Except String (List Bar) :=
  fun s => if s = tickerX then Except.ok [bar0] else Except.error errBoom

/-- C8 witness: in a two-ticker universe where the first ticker's fetch
raises, the second still appears and the first is omitted. -/
theorem get_ohlcv_universe_partial_success_witness :
    tickerX ∈ [tickerBad, tickerX] ∧ fetchW tickerX = Except.ok [bar0] ∧
      ([bar0] : List Bar) ≠ [] ∧ fetchW tickerBad = Except.error errBoom ∧
      get_ohlcv_for_universe fetchW [tickerBad, tickerX] tickerX
        = some ⟨[bar0], to_weekly [bar0]⟩ ∧
      get_ohlcv_for_universe fetchW [tickerBad, tickerX] tickerBad = none :=
  ⟨by simp, by simp [fetchW], by simp, by simp [fetchW, tickerBad, tickerX],
    (get_ohlcv_universe_partial_success fetchW [tickerBad, tickerX] tickerX).2 [bar0]
      (by simp) (by simp [fetchW]) (by simp),
    (get_ohlcv_universe_partial_success fetchW [tickerBad, tickerX] tickerBad).1.mpr
      (Or.inr (Or.inl ⟨errBoom, by simp [fetchW, tickerBad, tickerX]⟩))⟩

lemma weekKey_mono {d e : ℕ} (h : d ≤ e) : weekKey d ≤ weekKey e := by
  unfold weekKey
  omega

lemma weekKey_friday (d : ℕ) : weekKey d % 7 = 1 := by
  unfold weekKey
  omega

lemma weekKey_window (d : ℕ) : d ≤ weekKey d ∧ weekKey d < d + 7 := by
  unfold weekKey
  omega

lemma le_foldl_max (l : List ℚ) (x : ℚ) : x ≤ l.foldl max x := by
  induction l generalizing x with
  | nil => simp
  | cons a t ih => exact le_trans (le_max_left x a) (ih (max x a))

lemma foldl_max_mem (l : List ℚ) (x : ℚ) : l.foldl max x = x ∨ l.foldl max x ∈ l := by
  induction l generalizing x with
  | nil => simp
  | cons a t ih =>
    rw [List.foldl_cons]
    rcases ih (max x a) with h | h
    · rcases max_choice x a with hm | hm
      · exact Or.inl (h.trans hm)
      · exact Or.inr (List.mem_cons.mpr (Or.inl (h.trans hm)))
    · exact Or.inr (List.mem_cons_of_mem a h)

lemma mem_le_foldl_max (l : List ℚ) (x y : ℚ) (hy : y ∈ l) : y ≤ l.foldl max x := by
  induction l generalizing x with
  | nil => simp at hy
  | cons a t ih =>
    rw [List.foldl_cons]
    rcases List.mem_cons.mp hy with h | h
    · subst h
      exact le_trans (le_max_right x y) (le_foldl_max t _)
    · exact ih _ h

lemma foldl_min_le (l : List ℚ) (x : ℚ) : l.foldl min x ≤ x := by
  induction l generalizing x with
  | nil => simp
  | cons a t ih => exact le_trans (ih (min x a)) (min_le_left x a)

lemma foldl_min_mem (l : List ℚ) (x : ℚ) : l.foldl min x = x ∨ l.foldl min x ∈ l := by
  induction l generalizing x with
  | nil => simp
  | cons a t ih =>
    rw [List.foldl_cons]
    rcases ih (min x a) with h | h
    · rcases min_choice x a with hm | hm
      · exact Or.inl (h.trans hm)
      · exact Or.inr (List.mem_cons.mpr (Or.inl (h.trans hm)))
    · exact Or.inr (List.mem_cons_of_mem a h)

lemma foldl_min_le_mem (l : List ℚ) (x y : ℚ) (hy : y ∈ l) : l.foldl min x ≤ y := by
  induction l generalizing x with
  | nil => simp at hy
  | cons a t ih =>
    rw [List.foldl_cons]
    rcases List.mem_cons.mp hy with h | h
    · subst h
      exact le_trans (foldl_min_le t _) (min_le_right x y)
    · exact ih _ h

lemma foldl_add_sum (l : List ℚ) (x : ℚ) : l.foldl (· + ·) x = x + l.sum := by
  induction l generalizing x with
  | nil => simp
  | cons a t ih =>
    rw [List.foldl_cons, ih, List.sum_cons]
    ring

lemma getLastD_eq_getLast (b : Bar) (g : List Bar) :
    g.getLastD b = (b :: g).getLast (List.cons_ne_nil b g) := by
  induction g generalizing b with
  | nil => rfl
  | cons a t ih =>
    simp only [List.getLastD_cons]
    exact (ih a).trans (List.getLast_cons (List.cons_ne_nil a t)).symm

lemma dropWhile_key_gt (b : Bar) (rest : List Bar)
    (hp : List.Pairwise (fun a c : Bar => a.date < c.date) (b :: rest)) :
    ∀ z ∈ rest.dropWhile (fun x => weekKey x.date == weekKey b.date),
      weekKey b.date < weekKey z.date := by
  intro z hz
  rcases hRc : rest.dropWhile (fun x => weekKey x.date == weekKey b.date) with _ | ⟨y, ys⟩
  · rw [hRc] at hz
    simp at hz
  · have hy_ne : weekKey y.date ≠ weekKey b.date := by
      have := List.head?_dropWhile_not (fun x => weekKey x.date == weekKey b.date) rest
      rw [hRc] at this
      simpa using this
    have hyrest : y ∈ rest :=
      (List.dropWhile_sublist _).mem (hRc ▸ List.mem_cons_self y ys)
    have hby : b.date < y.date := (List.pairwise_cons.mp hp).1 y hyrest
    have hklt : weekKey b.date < weekKey y.date :=
      lt_of_le_of_ne (weekKey_mono hby.le) (Ne.symm hy_ne)
    rw [hRc] at hz
    rcases List.mem_cons.mp hz with rfl | hzys
    · exact hklt
    · have hpR : List.Pairwise (fun a c : Bar => a.date < c.date) (y :: ys) :=
        hRc ▸ ((List.pairwise_cons.mp hp).2.sublist (List.dropWhile_sublist _))
      have hyz : y.date < z.date := (List.pairwise_cons.mp hpR).1 z hzys
      exact lt_of_lt_of_le hklt (weekKey_mono hyz.le)

lemma to_weekly_filter_spec :
    ∀ daily : List Bar, List.Pairwise (fun a c : Bar => a.date < c.date) daily →
      ∀ w ∈ to_weekly daily, ∃ b g,
        daily.filter (fun x => weekKey x.date == w.date) = b :: g ∧
        weekKey b.date = w.date ∧ w = aggWeek b g := by
  intro daily
  induction daily using to_weekly.induct with
  | case1 =>
    intro _ w hw
    rw [to_weekly] at hw
    simp at hw
  | case2 b rest ih =>
    intro hp w hw
    have hGk : ∀ x ∈ rest.takeWhile (fun x => weekKey x.date == weekKey b.date),
        weekKey x.date = weekKey b.date := by
      intro x hx
      simpa using List.mem_takeWhile_imp hx
    have hRgt := dropWhile_key_gt b rest hp
    have hpR : List.Pairwise (fun a c : Bar => a.date < c.date)
        (rest.dropWhile (fun x => weekKey x.date == weekKey b.date)) :=
      (List.pairwise_cons.mp hp).2.sublist (List.dropWhile_sublist _)
    have hsplit : rest.takeWhile (fun x => weekKey x.date == weekKey b.date)
        ++ rest.dropWhile (fun x => weekKey x.date == weekKey b.date) = rest :=
      List.takeWhile_append_dropWhile _ _
    rw [to_weekly] at hw
    rcases List.mem_cons.mp hw with rfl | hw'
    · refine ⟨b, rest.takeWhile (fun x => weekKey x.date == weekKey b.date), ?_, rfl, rfl⟩
      have hd : (aggWeek b (rest.takeWhile (fun x => weekKey x.date == weekKey b.date))).date
          = weekKey b.date := rfl
      rw [hd, List.filter_cons]
      rw [if_pos (by simp)]
      congr 1
      conv_lhs => rw [← hsplit]
      rw [List.filter_append]
      have h1 : (rest.takeWhile (fun x => weekKey x.date == weekKey b.date)).filter
          (fun x => weekKey x.date == weekKey b.date)
          = rest.takeWhile (fun x => weekKey x.date == weekKey b.date) :=
        List.filter_eq_self.mpr fun a ha => by simp [hGk a ha]
      have h2 : (rest.dropWhile (fun x => weekKey x.date == weekKey b.date)).filter
          (fun x => weekKey x.date == weekKey b.date) = [] :=
        List.filter_eq_nil_iff.mpr fun a ha => by simp [Nat.ne_of_gt (hRgt a ha)]
      rw [h1, h2, List.append_nil]
    · obtain ⟨b', g', hfilt, hkey, hagg⟩ := ih hpR w hw'
      have hb'R : b' ∈ rest.dropWhile (fun x => weekKey x.date == weekKey b.date) :=
        List.mem_of_mem_filter (hfilt ▸ List.mem_cons_self b' g')
      have hklt : weekKey b.date < weekKey b'.date := hRgt b' hb'R
      have hwdate : weekKey b.date < w.date := hkey ▸ hklt
      refine ⟨b', g', ?_, hkey, hagg⟩
      rw [List.filter_cons, if_neg (by simp [Nat.ne_of_lt hwdate])]
      rw [← hsplit, List.filter_append]
      have h1 : (rest.takeWhile (fun x => weekKey x.date == weekKey b.date)).filter
          (fun x => weekKey x.date == w.date) = [] :=
        List.filter_eq_nil_iff.mpr fun a ha => by
          simp [hGk a ha, Nat.ne_of_lt hwdate]
      rw [h1, List.nil_append, hfilt]

lemma to_weekly_covers :
    ∀ daily : List Bar, ∀ x ∈ daily, ∃ w ∈ to_weekly daily, w.date = weekKey x.date := by
  intro daily
  induction daily using to_weekly.induct with
  | case1 => simp
  | case2 b rest ih =>
    intro x hx
    rw [to_weekly]
    rcases List.mem_cons.mp hx with rfl | hx'
    · exact ⟨aggWeek x (rest.takeWhile fun y => weekKey y.date == weekKey x.date),
        List.mem_cons_self _ _, rfl⟩
    · by_cases hxG : x ∈ rest.takeWhile (fun y => weekKey y.date == weekKey b.date)
      · refine ⟨aggWeek b (rest.takeWhile fun y => weekKey y.date == weekKey b.date),
          List.mem_cons_self _ _, ?_⟩
        have : weekKey x.date = weekKey b.date := by
          simpa using List.mem_takeWhile_imp hxG
        exact (congrArg weekKey rfl).trans this.symm
      · have hxR : x ∈ rest.dropWhile (fun y => weekKey y.date == weekKey b.date) := by
          have := List.takeWhile_append_dropWhile
            (fun y : Bar => weekKey y.date == weekKey b.date) rest
          rcases List.mem_append.mp (this ▸ hx') with h | h
          · exact absurd h hxG
          · exact h
        obtain ⟨w, hwmem, hwd⟩ := ih x hxR
        exact ⟨w, List.mem_cons_of_mem _ hwmem, hwd⟩

/-- C4: on a date-sorted non-empty daily frame, to_weekly produces one bar
per Friday-ending week that has daily bars; each weekly bar's date is a
Friday, covers exactly the daily bars of its week (the filter by week label),
and carries first Open, max High, min Low, last Close and summed Volume of
those bars; every daily bar's week is represented. -/
theorem to_weekly_aggregates (daily : List Bar)
    (hs : List.Pairwise (fun a c : Bar => a.date < c.date) daily)
    (hne : daily ≠ []) :
    to_weekly daily ≠ [] ∧
    (∀ w ∈ to_weekly daily, ∃ b g,
      daily.filter (fun x => weekKey x.date == w.date) = b :: g ∧
      w.date % 7 = 1 ∧
      (∀ x ∈ b :: g, x.date ≤ w.date ∧ w.date < x.date + 7) ∧
      w.Open = b.Open ∧
      w.Close = ((b :: g).getLast (List.cons_ne_nil b g)).Close ∧
      w.High ∈ (b :: g).map Bar.High ∧
      (∀ y ∈ (b :: g).map Bar.High, y ≤ w.High) ∧
      w.Low ∈ (b :: g).map Bar.Low ∧
      (∀ y ∈ (b :: g).map Bar.Low, w.Low ≤ y) ∧
      w.Volume = ((b :: g).map Bar.Volume).sum) ∧
    (∀ x ∈ daily, ∃ w ∈ to_weekly daily, w.date = weekKey x.date) := by
  refine ⟨?_, ?_, to_weekly_covers daily⟩
  · rcases daily with _ | ⟨b, rest⟩
    · exact absurd rfl hne
    · rw [to_weekly]
      exact List.cons_ne_nil _ _
  · intro w hw
    obtain ⟨b, g, hfilt, hkey, hagg⟩ := to_weekly_filter_spec daily hs w hw
    have hxkey : ∀ x ∈ b :: g, weekKey x.date = w.date := by
      intro x hx
      have : x ∈ daily.filter (fun x => weekKey x.date == w.date) := hfilt ▸ hx
      simpa using List.of_mem_filter this
    refine ⟨b, g, hfilt, ?_, ?_, ?_, ?_, ?_, ?_, ?_, ?_, ?_⟩
    · rw [← hkey]
      exact weekKey_friday b.date
    · intro x hx
      rw [← hxkey x hx]
      exact weekKey_window x.date
    · rw [hagg]
      rfl
    · rw [hagg]
      show (g.getLastD b).Close = _
      rw [getLastD_eq_getLast]
    · rw [hagg, List.map_cons]
      show (g.map Bar.High).foldl max b.High ∈ _
      rcases foldl_max_mem (g.map Bar.High) b.High with h | h
      · rw [h]
        exact List.mem_cons_self _ _
      · exact List.mem_cons_of_mem _ h
    · intro y hy
      rw [hagg]
      show y ≤ (g.map Bar.High).foldl max b.High
      rw [List.map_cons] at hy
      rcases List.mem_cons.mp hy with rfl | h
      · exact le_foldl_max _ _
      · exact mem_le_foldl_max _ _ _ h
    · rw [hagg, List.map_cons]
      show (g.map Bar.Low).foldl min b.Low ∈ _
      rcases foldl_min_mem (g.map Bar.Low) b.Low with h | h
      · rw [h]
        exact List.mem_cons_self _ _
      · exact List.mem_cons_of_mem _ h
    · intro y hy
      rw [hagg]
      show (g.map Bar.Low).foldl min b.Low ≤ y
      rw [List.map_cons] at hy
      rcases List.mem_cons.mp hy with rfl | h
      · exact foldl_min_le _ _
      · exact foldl_min_le_mem _ _ _ h
    · rw [hagg, List.map_cons, List.sum_cons]
      show (g.map Bar.Volume).foldl (· + ·) b.Volume = _
      rw [foldl_add_sum]

/-- A daily bar on day 1, a Friday. -/
def bar1 : Bar := ⟨1, 11, 15, 10, 14, 2000⟩

/-- A daily bar on day 4, a Monday. -/
def bar4 : Bar := ⟨4, 14, 16, 13, 15, 1500⟩

/-- A daily bar on day 6, a Wednesday. -/
def bar6 : Bar := ⟨6, 20, 22, 19, 21, 500⟩

/-- A concrete three-bar daily frame spanning two Friday-ending weeks. -/
def daily0 : List Bar := [bar0, bar1, bar4]

/-- C4 witness: the three-bar frame daily0 is sorted and non-empty, and the
aggregation theorem holds on it. -/
theorem to_weekly_aggregates_witness :
    List.Pairwise (fun a c : Bar => a.date < c.date) daily0 ∧ daily0 ≠ [] ∧
      (to_weekly daily0 ≠ [] ∧
      (∀ w ∈ to_weekly daily0, ∃ b g,
        daily0.filter (fun x => weekKey x.date == w.date) = b :: g ∧
        w.date % 7 = 1 ∧
        (∀ x ∈ b :: g, x.date ≤ w.date ∧ w.date < x.date + 7) ∧
        w.Open = b.Open ∧
        w.Close = ((b :: g).getLast (List.cons_ne_nil b g)).Close ∧
        w.High ∈ (b :: g).map Bar.High ∧
        (∀ y ∈ (b :: g).map Bar.High, y ≤ w.High) ∧
        w.Low ∈ (b :: g).map Bar.Low ∧
        (∀ y ∈ (b :: g).map Bar.Low, w.Low ≤ y) ∧
        w.Volume = ((b :: g).map Bar.Volume).sum) ∧
      (∀ x ∈ daily0, ∃ w ∈ to_weekly daily0, w.date = weekKey x.date)) :=
  ⟨by decide, by decide,
    to_weekly_aggregates daily0 (by decide) (by decide)⟩

/-- C5 counterexample: a frame whose single bar falls on a Wednesday (day 6),
so its final bars do not complete a Friday-ending week (the week's Friday is
day 8), yet to_weekly keeps that trailing week as a bar rather than dropping
it: pandas dropna removes only empty gap buckets, not partial trailing
weeks. -/
theorem to_weekly_trailing_counterexample :
    bar6.date % 7 ≠ 1 ∧ bar6.date ≠ weekKey bar6.date ∧
      to_weekly [bar6] = [aggWeek bar6 []] ∧ to_weekly [bar6] ≠ [] ∧
      (aggWeek bar6 []).date = weekKey bar6.date := by
  refine ⟨by decide, by decide, ?_, ?_, rfl⟩
  · rw [to_weekly]
    simp [to_weekly]
  · rw [to_weekly]
    exact List.cons_ne_nil _ _

/-- C5 amended: the trailing incomplete week is retained, not dropped: for
every non-empty daily frame the returned weekly series contains a bar for the
Friday-ending week of the last daily bar. -/
theorem to_weekly_keeps_trailing_week (daily : List Bar) (hne : daily ≠ []) :
    ∃ w ∈ to_weekly daily, w.date = weekKey ((daily.getLast hne).date) :=
  to_weekly_covers daily _ (List.getLast_mem hne)

/-- C5 witness: the single-bar Wednesday frame. -/
theorem to_weekly_keeps_trailing_week_witness :
    ([bar6] : List Bar) ≠ [] ∧
      ∃ w ∈ to_weekly [bar6],
        w.date = weekKey ((List.getLast [bar6] (List.cons_ne_nil bar6 [])).date) :=
  ⟨List.cons_ne_nil bar6 [],
    to_weekly_keeps_trailing_week [bar6] (List.cons_ne_nil bar6 [])⟩
